import Mathlib

/-!
Verification of the validation-loop / retry state machine of the cyrus
repository (`packages/edge-worker/src/validation`): the result parser, the
loop state machine, and the fixer-context builder.  The module itself is
exercised by `packages/edge-worker/test/EdgeWorker.system-prompt-resume.test.ts`;
its implementation is embedded here from the specification's description of
the data model and algorithms.
-/

namespace CyrusValidation

/-- Modelled from the spec: `ValidationResult` — the canonical verdict for one
attempt, a `pass` boolean and a human-readable `reason` string. -/
structure ValidationResult where
  pass : Bool
  reason : String
deriving DecidableEq, Repr

/-- Modelled from the spec: `Attempt` — one record in the loop's history.
`timestamp` is informational only (`Date.now()` in the source); it is
modelled as a plain natural number and fixed to `0` by `recordAttempt`. -/
structure Attempt where
  iteration : Nat
  result : ValidationResult
  timestamp : Nat
deriving DecidableEq, Repr

/-- Modelled from the spec: the tagged terminal/non-terminal outcome of a
validation loop, one of `in_progress`, `passed`, `failed_max_retries`. -/
inductive Outcome where
  | in_progress
  | passed
  | failed_max_retries
deriving DecidableEq, Repr

/-- Modelled from the spec: `ValidationLoopState` — the full state of one
validation session. -/
structure ValidationLoopState where
  iteration : Nat
  attempts : List Attempt
  completed : Bool
  outcome : Outcome
deriving DecidableEq, Repr

/-- Modelled from the spec: `ValidationLoopConfig` — policy parameters,
`maxIterations` (default 4) and `continueOnMaxRetries` (default true). -/
structure ValidationLoopConfig where
  maxIterations : Nat
  continueOnMaxRetries : Bool
deriving DecidableEq, Repr

/-- Modelled from the spec: the process-wide default configuration
`\x7bmaxIterations: 4, continueOnMaxRetries: true\x7d`. -/
def DEFAULT_VALIDATION_LOOP_CONFIG : ValidationLoopConfig :=
  { maxIterations := 4, continueOnMaxRetries := true }

/-- Modelled from the spec: `createInitialState()` returns iteration 0, empty
attempts, not completed, outcome `in_progress`. -/
def createInitialState : ValidationLoopState :=
  { iteration := 0, attempts := [], completed := false, outcome := .in_progress }

/-- Modelled from the spec: `recordAttempt(state, result, config)` — appends a
new `Attempt` with `iteration = state.iteration + 1`; a passing result
terminates with outcome `passed` (checked first); otherwise reaching
`config.maxIterations` terminates with `failed_max_retries`; otherwise the
loop stays `in_progress`.  The optional config argument of the source is made
explicit; callers that omit it pass `DEFAULT_VALIDATION_LOOP_CONFIG`. -/
def recordAttempt (state : ValidationLoopState) (result : ValidationResult)
    (config : ValidationLoopConfig) : ValidationLoopState :=
  let newIteration := state.iteration + 1
  let newAttempts := state.attempts ++ [⟨newIteration, result, 0⟩]
  if result.pass then
    { iteration := newIteration, attempts := newAttempts,
      completed := true, outcome := .passed }
  else if config.maxIterations ≤ newIteration then
    { iteration := newIteration, attempts := newAttempts,
      completed := true, outcome := .failed_max_retries }
  else
    { iteration := newIteration, attempts := newAttempts,
      completed := false, outcome := .in_progress }

/-- Modelled from the spec: `shouldContinueLoop(state)` is true iff the
outcome is `in_progress`. -/
def shouldContinueLoop (state : ValidationLoopState) : Bool :=
  state.outcome = .in_progress

/-- Modelled from the spec: `shouldProceedAfterValidation(state, config)` is
true iff the outcome is `passed`, or it is `failed_max_retries` and
`config.continueOnMaxRetries` is true. -/
def shouldProceedAfterValidation (state : ValidationLoopState)
    (config : ValidationLoopConfig) : Bool :=
  state.outcome = .passed ∨
    (state.outcome = .failed_max_retries ∧ config.continueOnMaxRetries)

/-- Modelled from the spec: one entry of `FixerContext.previousAttempts`,
an `\x7biteration, reason\x7d` pair. -/
structure PreviousAttempt where
  iteration : Nat
  reason : String
deriving DecidableEq, Repr

/-- Modelled from the spec: `FixerContext` — the derived, read-only view used
to build the next prompt. -/
structure FixerContext where
  failureReason : String
  iteration : Nat
  maxIterations : Nat
  previousAttempts : List PreviousAttempt
deriving DecidableEq, Repr

/-- Modelled from the spec: `getFixerContext(state, config)` returns `null`
when the state is completed or has no attempts; otherwise the failure reason
of the last attempt, the current iteration, the configured max, and all
attempts but the last mapped to `\x7biteration, reason\x7d`. -/
def getFixerContext (state : ValidationLoopState)
    (config : ValidationLoopConfig) : Option FixerContext :=
  if state.completed then none
  else
    match state.attempts.getLast? with
    | none => none
    | some last =>
        some { failureReason := last.result.reason,
               iteration := state.iteration,
               maxIterations := config.maxIterations,
               previousAttempts := state.attempts.dropLast.map
                 fun a => { iteration := a.iteration, reason := a.result.reason } }

/-- The caller's retry loop from the spec's data-flow description: feed a
sequence of parsed results to `recordAttempt` one after the other under a
fixed config. -/
def applyAttempts (config : ValidationLoopConfig) (s : ValidationLoopState)
    (rs : List ValidationResult) : ValidationLoopState :=
  rs.foldl (fun s r => recordAttempt s r config) s

/-- The states reachable from `createInitialState` by applying
`recordAttempt` only to non-completed states (the spec's precondition that
callers respect `completed`). -/
inductive Reachable : ValidationLoopState → Prop where
  | init : Reachable createInitialState
  | step (s : ValidationLoopState) (r : ValidationResult)
      (c : ValidationLoopConfig) : Reachable s → s.completed = false →
      Reachable (recordAttempt s r c)

/-- JSON-like values: the shallow embedding of the `unknown` structured
output handed to the result parser. -/
inductive Json where
  | null
  | bool (b : Bool)
  | num (n : Int)
  | str (s : String)
  | arr (elems : List Json)
  | obj (fields : List (String × Json))

/-- Modelled from the spec: the JSON-schema surface returned by
`getValidationResultSchema()` — a type tag, per-property primitive types,
the required-field list, and the `additionalProperties` flag. -/
structure JsonSchema where
  type : String
  properties : List (String × String)
  required : List String
  additionalProperties : Bool
deriving DecidableEq, Repr

/-- Modelled from the spec: `getValidationResultSchema()` exposes the
pass/reason shape with both fields required and `additionalProperties:
false`. -/
def getValidationResultSchema : JsonSchema :=
  { type := "object",
    properties := [("pass", "boolean"), ("reason", "string")],
    required := ["pass", "reason"],
    additionalProperties := false }

/-- Does a JSON value have the primitive type named by a schema property
type tag? -/
def typeMatches (t : String) (j : Json) : Bool :=
  match j with
  | .bool _ => t = "boolean"
  | .str _ => t = "string"
  | .num _ => t = "number"
  | _ => false

/-- Generic validation of a JSON value against an object schema: the value
must be an object, every required key must be present, and every present key
must either be declared (with a matching type) or be tolerated by
`additionalProperties`. -/
def validatesAgainst (schema : JsonSchema) (j : Json) : Bool :=
  match j with
  | .obj fields =>
      (schema.type = "object") &&
      schema.required.all (fun k => (fields.lookup k).isSome) &&
      fields.all (fun kv =>
        match schema.properties.lookup kv.1 with
        | some t => typeMatches t kv.2
        | none => schema.additionalProperties)
  | _ => false

/-- Field lookup on a JSON object (first occurrence), `none` on
non-objects. -/
def jsonLookup (j : Json) (k : String) : Option Json :=
  match j with
  | .obj fields => fields.lookup k
  | _ => none

/-- Modelled from the spec: the structured-output path of
`parseValidationResult` — a structured output is used iff it validates
against the schema of `getValidationResultSchema()`, in which case its
`pass` and `reason` fields are returned directly. -/
def validateStructured (j : Json) : Option ValidationResult :=
  if validatesAgainst getValidationResultSchema j then
    match jsonLookup j "pass", jsonLookup j "reason" with
    | some (.bool b), some (.str s) => some ⟨b, s⟩
    | _, _ => none
  else none

/-- The backtick character (codepoint 96). -/
def backtickChar : Char := Char.ofNat 96

/-- The double-quote character (codepoint 34). -/
def quoteChar : Char := Char.ofNat 34

/-- The backslash character (codepoint 92). -/
def backslashChar : Char := Char.ofNat 92

/-- The opening-brace character (codepoint 123). -/
def lbraceChar : Char := Char.ofNat 123

/-- The closing-brace character (codepoint 125). -/
def rbraceChar : Char := Char.ofNat 125

/-- JSON-relevant whitespace: space, newline, tab, carriage return. -/
def isWsChar (c : Char) : Bool := c = ' ' ∨ c = '\n' ∨ c = '\t' ∨ c = '\r'

/-- Trim leading and trailing whitespace from a character list (the
character-level counterpart of `String.trim`). -/
def trimChars (cs : List Char) : List Char :=
  ((cs.dropWhile isWsChar).reverse.dropWhile isWsChar).reverse

/-- Skip leading whitespace. -/
def skipWs (cs : List Char) : List Char := cs.dropWhile isWsChar

/-- Expect the character `c` after optional whitespace; return the rest. -/
def expectChar (c : Char) (cs : List Char) : Option (List Char) :=
  match skipWs cs with
  | [] => none
  | d :: rest => if d = c then some rest else none

/-- Parse a JSON boolean literal after optional whitespace. -/
def parseBoolTok (cs : List Char) : Option (Bool × List Char) :=
  let cs := skipWs cs
  if ['t', 'r', 'u', 'e'].isPrefixOf cs then some (true, cs.drop 4)
  else if ['f', 'a', 'l', 's', 'e'].isPrefixOf cs then some (false, cs.drop 5)
  else none

/-- Translate a character appearing after a backslash in a JSON string
literal. -/
def unescapeChar (c : Char) : Char :=
  if c = 'n' then '\n' else if c = 't' then '\t' else if c = 'r' then '\r' else c

/-- Parse the body of a JSON string literal (after the opening quote) up to
the closing quote, handling backslash escapes; returns the decoded
characters and the remaining input. -/
def parseStrBody : List Char → Option (List Char × List Char)
  | [] => none
  | c :: rest =>
    if c = quoteChar then some ([], rest)
    else if c = backslashChar then
      match rest with
      | [] => none
      | e :: rest2 => (parseStrBody rest2).map fun p => (unescapeChar e :: p.1, p.2)
    else (parseStrBody rest).map fun p => (c :: p.1, p.2)

/-- Parse a JSON string literal after optional whitespace. -/
def parseStringTok (cs : List Char) : Option (List Char × List Char) :=
  match skipWs cs with
  | [] => none
  | d :: rest => if d = quoteChar then parseStrBody rest else none

/-- Modelled from the spec: `JSON.parse` of a candidate text followed by
validation against the strict pass/reason schema, fused into one
recogniser.  It accepts exactly the texts denoting a JSON object with the
two required fields `pass` (boolean) and `reason` (string), in either
order, and no additional properties — every other text yields `none`,
which the surrounding algorithm treats as falling through to the next
priority tier (malformed JSON never throws). -/
def parseVerdictChars (cs : List Char) : Option ValidationResult := do
  let cs ← expectChar lbraceChar cs
  let (key1, cs) ← parseStringTok cs
  let cs ← expectChar ':' cs
  if key1 = ['p', 'a', 's', 's'] then
    let (b, cs) ← parseBoolTok cs
    let cs ← expectChar ',' cs
    let (key2, cs) ← parseStringTok cs
    let cs ← expectChar ':' cs
    if key2 = ['r', 'e', 'a', 's', 'o', 'n'] then
      let (r, cs) ← parseStringTok cs
      let cs ← expectChar rbraceChar cs
      if (skipWs cs).isEmpty then some ⟨b, String.mk r⟩ else none
    else none
  else if key1 = ['r', 'e', 'a', 's', 'o', 'n'] then
    let (r, cs) ← parseStringTok cs
    let cs ← expectChar ',' cs
    let (key2, cs) ← parseStringTok cs
    let cs ← expectChar ':' cs
    if key2 = ['p', 'a', 's', 's'] then
      let (b, cs) ← parseBoolTok cs
      let cs ← expectChar rbraceChar cs
      if (skipWs cs).isEmpty then some ⟨b, String.mk r⟩ else none
    else none
  else none

/-- Two backticks: the lookahead used to spot a triple-backtick fence. -/
def fencePair : List Char := [backtickChar, backtickChar]

/-- Drop characters up to and including the first triple-backtick fence;
`none` when no fence occurs. -/
def dropUntilFence : List Char → Option (List Char)
  | [] => none
  | c :: rest =>
    if c = backtickChar ∧ rest.take 2 = fencePair then some (rest.drop 2)
    else dropUntilFence rest

/-- Collect characters up to (excluding) the next triple-backtick fence;
`none` when the fence never closes. -/
def takeUntilFence : List Char → Option (List Char)
  | [] => none
  | c :: rest =>
    if c = backtickChar ∧ rest.take 2 = fencePair then some []
    else (takeUntilFence rest).map (c :: ·)

/-- Strip the optional `json` language tag directly after an opening
fence. -/
def stripJsonTag (cs : List Char) : List Char :=
  if ['j', 's', 'o', 'n'].isPrefixOf cs then cs.drop 4 else cs

/-- Modelled from the spec: extract the contents of the first fenced code
block (either a ```json fence or a bare ``` fence).  Surrounding whitespace
in the block body is left in place — the JSON parse applied to the body is
whitespace-tolerant, as `JSON.parse` is. -/
def extractFenced (cs : List Char) : Option (List Char) := do
  let afterOpen ← dropUntilFence cs
  let body ← takeUntilFence (stripJsonTag afterOpen)
  some body

/-- Is `pat` a contiguous subsequence of the input? -/
def containsSeq (pat : List Char) : List Char → Bool
  | [] => pat.isEmpty
  | c :: rest => pat.isPrefixOf (c :: rest) || containsSeq pat rest

/-- Modelled from the spec: the quote-flexible literal search for a
`"pass": true` marker in the raw text (tier 3). -/
def passTruePattern (cs : List Char) : Bool :=
  containsSeq ("\"pass\": true").data cs || containsSeq ("pass: true").data cs

/-- Modelled from the spec: the quote-flexible literal search for a
`"pass": false` marker in the raw text (tier 3). -/
def passFalsePattern (cs : List Char) : Bool :=
  containsSeq ("\"pass\": false").data cs || containsSeq ("pass: false").data cs

/-- Modelled from the spec: case-insensitive success-indicator scan
(tier 4); the input is the lower-cased text. -/
def successIndicator (lower : List Char) : Bool :=
  containsSeq ("passed successfully").data lower

/-- Modelled from the spec: case-insensitive failure-indicator scan
(tier 4); the input is the lower-cased text. -/
def failureIndicator (lower : List Char) : Bool :=
  containsSeq ("failed").data lower || containsSeq ("not passing").data lower

/-- Modelled from the spec: `parseValidationResult(responseText,
structuredOutput)` — the five-tier, never-throwing parser.  Priority order:
valid structured output; whole trimmed text as JSON; fenced code block as
JSON; literal `"pass"` marker search; natural-language indicators (reason
is then the original text); and the failure-safe defaults for empty and
unparseable input. -/
def parseValidationResult (responseText : Option String)
    (structuredOutput : Option Json) : ValidationResult :=
  match structuredOutput.bind validateStructured with
  | some r => r
  | none =>
    match responseText with
    | none => ⟨false, "No response received from validation"⟩
    | some t =>
      let trimmed := trimChars t.data
      if trimmed.isEmpty then ⟨false, "No response received from validation"⟩
      else
        match parseVerdictChars trimmed with
        | some r => r
        | none =>
          match (extractFenced t.data).bind parseVerdictChars with
          | some r => r
          | none =>
            if passTruePattern t.data then ⟨true, t⟩
            else if passFalsePattern t.data then ⟨false, t⟩
            else
              let lower := t.data.map Char.toLower
              if successIndicator lower then ⟨true, t⟩
              else if failureIndicator lower then ⟨false, t⟩
              else ⟨false, "Could not parse validation result"⟩

/-- The canonical JSON rendering of a pass/reason verdict, used to state
the fenced-block round-trip property. -/
def renderVerdict (b : Bool) (r : String) : List Char :=
  lbraceChar :: quoteChar :: 'p' :: 'a' :: 's' :: 's' :: quoteChar :: ':' :: ' ' ::
    ((if b then ['t', 'r', 'u', 'e'] else ['f', 'a', 'l', 's', 'e']) ++
      (',' :: ' ' :: quoteChar :: 'r' :: 'e' :: 'a' :: 's' :: 'o' :: 'n' ::
        quoteChar :: ':' :: ' ' :: quoteChar ::
        (r.data ++ quoteChar :: rbraceChar :: [])))

/-- An opening ```json fence followed by a newline. -/
def fenceOpenJson : String := String.mk ([backtickChar, backtickChar, backtickChar] ++ "json\n".data)

/-- An opening bare ``` fence followed by a newline. -/
def fenceOpenBare : String := String.mk ([backtickChar, backtickChar, backtickChar] ++ "\n".data)

/-- A newline followed by a closing ``` fence. -/
def fenceClose : String := String.mk ('\n' :: [backtickChar, backtickChar, backtickChar])

/-- A response text consisting of arbitrary leading prose, a fenced code
block — ```json when `tagged`, a bare ``` otherwise — whose contents are
the rendered verdict, and arbitrary trailing text. -/
def mkFencedText (pre : String) (tagged : Bool) (b : Bool) (r : String)
    (post : String) : String :=
  pre ++ (if tagged then fenceOpenJson else fenceOpenBare) ++
    String.mk (renderVerdict b r) ++ fenceClose ++ post

/-- A character that needs no JSON escaping and cannot disturb a fence:
not a double quote, not a backslash, not a backtick. -/
def plainChar (c : Char) : Bool :=
  ¬(c = quoteChar) ∧ ¬(c = backslashChar) ∧ ¬(c = backtickChar)

theorem recordAttempt_pass (s : ValidationLoopState) (r : ValidationResult)
    (c : ValidationLoopConfig) (h : r.pass = true) :
    recordAttempt s r c =
      ⟨s.iteration + 1, s.attempts ++ [⟨s.iteration + 1, r, 0⟩], true, .passed⟩ := by
  simp [recordAttempt, h]

theorem recordAttempt_maxed (s : ValidationLoopState) (r : ValidationResult)
    (c : ValidationLoopConfig) (h : r.pass = false)
    (hm : c.maxIterations ≤ s.iteration + 1) :
    recordAttempt s r c =
      ⟨s.iteration + 1, s.attempts ++ [⟨s.iteration + 1, r, 0⟩], true,
        .failed_max_retries⟩ := by
  simp [recordAttempt, h, hm]

theorem recordAttempt_cont (s : ValidationLoopState) (r : ValidationResult)
    (c : ValidationLoopConfig) (h : r.pass = false)
    (hm : ¬ c.maxIterations ≤ s.iteration + 1) :
    recordAttempt s r c =
      ⟨s.iteration + 1, s.attempts ++ [⟨s.iteration + 1, r, 0⟩], false,
        .in_progress⟩ := by
  simp [recordAttempt, h, hm]

theorem recordAttempt_attempts (s : ValidationLoopState) (r : ValidationResult)
    (c : ValidationLoopConfig) :
    (recordAttempt s r c).attempts = s.attempts ++ [⟨s.iteration + 1, r, 0⟩] := by
  cases hr : r.pass with
  | false =>
    by_cases hm : c.maxIterations ≤ s.iteration + 1
    · rw [recordAttempt_maxed s r c hr hm]
    · rw [recordAttempt_cont s r c hr hm]
  | true => rw [recordAttempt_pass s r c hr]

theorem recordAttempt_iteration (s : ValidationLoopState) (r : ValidationResult)
    (c : ValidationLoopConfig) :
    (recordAttempt s r c).iteration = s.iteration + 1 := by
  cases hr : r.pass with
  | false =>
    by_cases hm : c.maxIterations ≤ s.iteration + 1
    · rw [recordAttempt_maxed s r c hr hm]
    · rw [recordAttempt_cont s r c hr hm]
  | true => rw [recordAttempt_pass s r c hr]

theorem recordAttempt_completed_iff (s : ValidationLoopState) (r : ValidationResult)
    (c : ValidationLoopConfig) :
    ((recordAttempt s r c).completed = true ↔
      (recordAttempt s r c).outcome ≠ Outcome.in_progress) := by
  cases hr : r.pass with
  | false =>
    by_cases hm : c.maxIterations ≤ s.iteration + 1
    · rw [recordAttempt_maxed s r c hr hm]; simp
    · rw [recordAttempt_cont s r c hr hm]; simp
  | true => rw [recordAttempt_pass s r c hr]; simp

/-- C1: recording a passing result on any non-completed state, under any
config, terminates the loop with outcome `passed`, never
`failed_max_retries`, even when the new iteration count reaches
`maxIterations` — the pass check precedes the max-iteration check. -/
theorem C1_pass_priority (s : ValidationLoopState) (c : ValidationLoopConfig)
    (r : ValidationResult) (hs : s.completed = false) (hr : r.pass = true) :
    (recordAttempt s r c).completed = true ∧
    (recordAttempt s r c).outcome = Outcome.passed ∧
    (recordAttempt s r c).outcome ≠ Outcome.failed_max_retries := by
  rw [recordAttempt_pass s r c hr]
  exact ⟨rfl, rfl, by simp⟩

/-- C1 witness: a passing result at iteration 3 (so the new count 4 equals
the default `maxIterations`) still yields `passed`. -/
theorem C1_pass_priority_witness :
    (recordAttempt ⟨3, [], false, .in_progress⟩ ⟨true, "All tests passed"⟩
      DEFAULT_VALIDATION_LOOP_CONFIG).outcome = Outcome.passed :=
  (C1_pass_priority ⟨3, [], false, .in_progress⟩ DEFAULT_VALIDATION_LOOP_CONFIG
    ⟨true, "All tests passed"⟩ rfl rfl).2.1

theorem applyAttempts_in_progress (rs : List ValidationResult) :
    ∀ (c : ValidationLoopConfig) (s : ValidationLoopState),
      (∀ r ∈ rs, r.pass = false) → s.completed = false →
      s.outcome = Outcome.in_progress →
      s.iteration + rs.length < c.maxIterations →
      (applyAttempts c s rs).iteration = s.iteration + rs.length ∧
      (applyAttempts c s rs).completed = false ∧
      (applyAttempts c s rs).outcome = Outcome.in_progress := by
  induction rs with
  | nil =>
    intro c s _ h1 h2 _
    exact ⟨by simp [applyAttempts], h1, h2⟩
  | cons r rest ih =>
    intro c s hfail hc ho hlt
    have hr : r.pass = false := hfail r (List.mem_cons_self r rest)
    have hlen : s.iteration + (rest.length + 1) < c.maxIterations := by
      simpa [List.length_cons] using hlt
    have hm : ¬ c.maxIterations ≤ s.iteration + 1 := by omega
    have hstep := recordAttempt_cont s r c hr hm
    have hfold : applyAttempts c s (r :: rest)
        = applyAttempts c (recordAttempt s r c) rest := rfl
    rw [hfold, hstep]
    have h2 := ih c ⟨s.iteration + 1, s.attempts ++ [⟨s.iteration + 1, r, 0⟩],
        false, .in_progress⟩
      (fun x hx => hfail x (List.mem_cons_of_mem r hx)) rfl rfl
      (by show s.iteration + 1 + rest.length < c.maxIterations; omega)
    refine ⟨?_, h2.2.1, h2.2.2⟩
    rw [h2.1]
    show s.iteration + 1 + rest.length = s.iteration + (r :: rest).length
    simp [List.length_cons]; omega

/-- C2: starting from the initial state, recording `n` consecutive failing
attempts under a config with `maxIterations = m`, for `1 ≤ n ≤ m`, yields
`iteration = n`, `completed` exactly when `n ≥ m`, outcome
`failed_max_retries` at `n = m`, and `in_progress` for `n < m`. -/
theorem C2_failing_run (c : ValidationLoopConfig) (rs : List ValidationResult)
    (hfail : ∀ r ∈ rs, r.pass = false) (h1 : 1 ≤ rs.length)
    (h2 : rs.length ≤ c.maxIterations) :
    (applyAttempts c createInitialState rs).iteration = rs.length ∧
    ((applyAttempts c createInitialState rs).completed = true ↔
      c.maxIterations ≤ rs.length) ∧
    (rs.length = c.maxIterations →
      (applyAttempts c createInitialState rs).outcome = Outcome.failed_max_retries) ∧
    (rs.length < c.maxIterations →
      (applyAttempts c createInitialState rs).outcome = Outcome.in_progress) := by
  by_cases hcase : rs.length < c.maxIterations
  · have h := applyAttempts_in_progress rs c createInitialState hfail rfl rfl
      (by show 0 + rs.length < c.maxIterations; omega)
    refine ⟨?_, ?_, ?_, fun _ => h.2.2⟩
    · rw [h.1]; show 0 + rs.length = rs.length; omega
    · rw [h.2.1]
      constructor
      · intro hx; exact absurd hx (by simp)
      · intro hge; exact absurd hge (by omega)
    · intro hEq; exact absurd hEq (by omega)
  · have heq : rs.length = c.maxIterations := le_antisymm h2 (not_lt.mp hcase)
    have hne : rs ≠ [] := by
      intro h0; rw [h0] at h1; simp at h1
    have hrun := applyAttempts_in_progress rs.dropLast c createInitialState
      (fun x hx => hfail x (List.mem_of_mem_dropLast hx)) rfl rfl
      (by show 0 + rs.dropLast.length < c.maxIterations
          rw [List.length_dropLast]; omega)
    have hit : (applyAttempts c createInitialState rs.dropLast).iteration
        = rs.length - 1 := by
      rw [hrun.1, List.length_dropLast]
      show 0 + (rs.length - 1) = rs.length - 1; omega
    have hlast : (rs.getLast hne).pass = false := hfail _ (List.getLast_mem hne)
    have happ : applyAttempts c createInitialState rs
        = recordAttempt (applyAttempts c createInitialState rs.dropLast)
            (rs.getLast hne) c := by
      conv_lhs => rw [← List.dropLast_append_getLast hne]
      simp [applyAttempts, List.foldl_append]
    have hstep := recordAttempt_maxed
      (applyAttempts c createInitialState rs.dropLast) (rs.getLast hne) c hlast
      (by rw [hit]; omega)
    rw [happ, hstep]
    refine ⟨?_, ?_, fun _ => rfl, fun hlt => absurd hlt (by omega)⟩
    · show (applyAttempts c createInitialState rs.dropLast).iteration + 1 = rs.length
      rw [hit]; omega
    · exact ⟨fun _ => by omega, fun _ => rfl⟩

/-- C2 witness: four consecutive failing attempts under the default config
end with outcome `failed_max_retries`. -/
theorem C2_failing_run_witness :
    (applyAttempts DEFAULT_VALIDATION_LOOP_CONFIG createInitialState
      (List.replicate 4 ⟨false, "Test failure"⟩)).outcome
      = Outcome.failed_max_retries :=
  (C2_failing_run DEFAULT_VALIDATION_LOOP_CONFIG
    (List.replicate 4 ⟨false, "Test failure"⟩)
    (by decide) (by decide) (by decide)).2.2.1 (by decide)

theorem get_append_singleton_iter (l : List Attempt) (a : Attempt)
    (hl : ∀ k (hk : k < l.length), (l.get ⟨k, hk⟩).iteration = k + 1)
    (ha : a.iteration = l.length + 1) :
    ∀ k (hk : k < (l ++ [a]).length), ((l ++ [a]).get ⟨k, hk⟩).iteration = k + 1 := by
  intro k hk
  have hk2 : k < l.length + 1 := by simpa using hk
  rcases Nat.lt_succ_iff_lt_or_eq.mp hk2 with hlt | heq
  · have hg : (l ++ [a]).get ⟨k, hk⟩ = l.get ⟨k, hlt⟩ := by
      rw [List.get_eq_getElem, List.get_eq_getElem]
      exact List.getElem_append_left hlt
    rw [hg]; exact hl k hlt
  · have hg : (l ++ [a]).get ⟨k, hk⟩ = a := by
      rw [List.get_eq_getElem]
      exact List.getElem_concat_length _ _ _ heq _
    rw [hg, ha, heq]

theorem get_iter_of_eq (l1 l2 : List Attempt) (h : l1 = l2)
    (hh : ∀ k (hk : k < l2.length), (l2.get ⟨k, hk⟩).iteration = k + 1) :
    ∀ k (hk : k < l1.length), (l1.get ⟨k, hk⟩).iteration = k + 1 := by
  subst h; exact hh

/-- C3: every state reachable from the initial state by recording attempts
only on non-completed states satisfies the invariants — `iteration` equals
the number of attempts; `completed` holds iff the outcome is terminal; the
k-th attempt (1-based) carries iteration k and each step appends exactly one
attempt; and every reachable terminal state is completed, so the
non-completed precondition never lets a step start from a terminal state
(no resurrection). -/
theorem C3_reachable_invariants (s : ValidationLoopState) (hs : Reachable s) :
    s.iteration = s.attempts.length ∧
    (s.completed = true ↔ s.outcome ≠ Outcome.in_progress) ∧
    (∀ k (hk : k < s.attempts.length), (s.attempts.get ⟨k, hk⟩).iteration = k + 1) ∧
    (∀ (r : ValidationResult) (c : ValidationLoopConfig),
      (recordAttempt s r c).attempts = s.attempts ++ [⟨s.iteration + 1, r, 0⟩]) ∧
    (s.outcome ≠ Outcome.in_progress → s.completed = true) := by
  induction hs with
  | init =>
    refine ⟨rfl, by simp [createInitialState], ?_, ?_, by simp [createInitialState]⟩
    · intro k hk; simp [createInitialState] at hk
    · intro r c; exact recordAttempt_attempts _ _ _
  | step s r c hreach hcomp ih =>
    obtain ⟨ih1, _, ih3, _, _⟩ := ih
    have hatts := recordAttempt_attempts s r c
    refine ⟨?_, recordAttempt_completed_iff s r c, ?_,
      fun rx cx => recordAttempt_attempts _ rx cx,
      fun h => (recordAttempt_completed_iff s r c).mpr h⟩
    · rw [recordAttempt_iteration s r c, hatts, List.length_append, ih1]; simp
    · exact get_iter_of_eq _ _ hatts
        (get_append_singleton_iter s.attempts ⟨s.iteration + 1, r, 0⟩ ih3
          (by show s.iteration + 1 = s.attempts.length + 1; rw [ih1]))

/-- C3 witness: the state after one failing attempt from the initial state
is reachable and satisfies the iteration/attempts-length invariant. -/
theorem C3_reachable_invariants_witness :
    (recordAttempt createInitialState ⟨false, "Test failure"⟩
      DEFAULT_VALIDATION_LOOP_CONFIG).iteration
    = (recordAttempt createInitialState ⟨false, "Test failure"⟩
      DEFAULT_VALIDATION_LOOP_CONFIG).attempts.length :=
  (C3_reachable_invariants _
    (Reachable.step createInitialState ⟨false, "Test failure"⟩
      DEFAULT_VALIDATION_LOOP_CONFIG Reachable.init rfl)).1

/-- C4: `shouldContinueLoop` is true exactly on `in_progress` states, and
`shouldProceedAfterValidation` is true exactly on `passed` states or on
`failed_max_retries` states whose config sets `continueOnMaxRetries`. -/
theorem C4_guards (s : ValidationLoopState) (c : ValidationLoopConfig) :
    (shouldContinueLoop s = true ↔ s.outcome = Outcome.in_progress) ∧
    (shouldProceedAfterValidation s c = true ↔
      (s.outcome = Outcome.passed ∨
        (s.outcome = Outcome.failed_max_retries ∧
          c.continueOnMaxRetries = true))) := by
  constructor
  · simp [shouldContinueLoop]
  · simp [shouldProceedAfterValidation]

/-- C8: `getFixerContext` returns `none` exactly on completed or
attempt-less states; on an in-progress state with at least one attempt it
returns the last attempt's reason as `failureReason`, the state's
`iteration`, the config's `maxIterations` (4 in the default config), and
all attempts but the last as `previousAttempts` (length
`attempts.length - 1`), in order. -/
theorem C8_fixer_context (s : ValidationLoopState) (c : ValidationLoopConfig) :
    DEFAULT_VALIDATION_LOOP_CONFIG.maxIterations = 4 ∧
    (getFixerContext s c = none ↔ (s.completed = true ∨ s.attempts = [])) ∧
    (∀ (hc : s.completed = false) (ha : s.attempts ≠ []),
      getFixerContext s c = some
        { failureReason := (s.attempts.getLast ha).result.reason,
          iteration := s.iteration,
          maxIterations := c.maxIterations,
          previousAttempts := s.attempts.dropLast.map
            fun a => { iteration := a.iteration, reason := a.result.reason } } ∧
      (s.attempts.dropLast.map
        (fun a => ({ iteration := a.iteration, reason := a.result.reason } :
          PreviousAttempt))).length = s.attempts.length - 1) := by
  refine ⟨rfl, ?_, ?_⟩
  · cases hcomp : s.completed with
    | false =>
      cases hlast : s.attempts.getLast? with
      | none =>
        have hnil : s.attempts = [] := List.getLast?_eq_none_iff.mp hlast
        simp [getFixerContext, hcomp, hlast, hnil]
      | some a =>
        have hnn : ¬ s.attempts = [] := by
          intro h0; rw [h0] at hlast; simp at hlast
        simp [getFixerContext, hcomp, hlast, hnn]
    | true => simp [getFixerContext, hcomp]
  · intro hc ha
    have hlast : s.attempts.getLast? = some (s.attempts.getLast ha) :=
      List.getLast?_eq_getLast_of_ne_nil ha
    refine ⟨by simp [getFixerContext, hc, hlast], ?_⟩
    simp [List.length_map, List.length_dropLast]

/-- C8 witness: on an in-progress state with two failing attempts the
context carries the second reason, iteration 2, the default max 4, and the
first attempt alone as previous attempt. -/
theorem C8_fixer_context_witness :
    getFixerContext
      ⟨2, [⟨1, ⟨false, "First error"⟩, 0⟩, ⟨2, ⟨false, "Second error"⟩, 0⟩],
        false, .in_progress⟩ DEFAULT_VALIDATION_LOOP_CONFIG
    = some ⟨"Second error", 2, 4, [⟨1, "First error"⟩]⟩ := by
  have h := (C8_fixer_context
    ⟨2, [⟨1, ⟨false, "First error"⟩, 0⟩, ⟨2, ⟨false, "Second error"⟩, 0⟩],
      false, .in_progress⟩ DEFAULT_VALIDATION_LOOP_CONFIG).2.2 rfl (by simp)
  simpa using h.1

/-- C5: a structured output that validates against the pass/reason shape is
returned exactly (its `pass` and `reason` fields), whatever the response
text is — the text is ignored entirely. -/
theorem C5_structured_output (fields : List (String × Json)) (b : Bool)
    (msg : String)
    (hval : validatesAgainst getValidationResultSchema (Json.obj fields) = true)
    (hp : fields.lookup "pass" = some (Json.bool b))
    (hr : fields.lookup "reason" = some (Json.str msg)) :
    ∀ responseText : Option String,
      parseValidationResult responseText (some (Json.obj fields)) = ⟨b, msg⟩ := by
  intro responseText
  have hv : validateStructured (Json.obj fields) = some ⟨b, msg⟩ := by
    simp [validateStructured, hval, jsonLookup, hp, hr]
  simp [parseValidationResult, hv]

/-- C5 witness: the structured output with pass `true` and reason `All
tests passed` is returned unchanged even though a contradictory response
text is present. -/
theorem C5_structured_output_witness :
    parseValidationResult (some "Verification failed")
      (some (Json.obj [("pass", Json.bool true),
        ("reason", Json.str "All tests passed")]))
      = ⟨true, "All tests passed"⟩ :=
  C5_structured_output
    [("pass", Json.bool true), ("reason", Json.str "All tests passed")]
    true "All tests passed" (by decide) rfl rfl
    (some "Verification failed")

/-- C6: `getValidationResultSchema` is the strict object schema with
exactly the properties `pass` and `reason`, both required, and
`additionalProperties: false`; the structured-output path of
`parseValidationResult` accepts a value only if it validates against this
very schema, and any object carrying a key other than `pass` and `reason`
fails that validation. -/
theorem C6_schema_strictness :
    (getValidationResultSchema.type = "object" ∧
      getValidationResultSchema.properties.map Prod.fst = ["pass", "reason"] ∧
      getValidationResultSchema.required = ["pass", "reason"] ∧
      getValidationResultSchema.additionalProperties = false) ∧
    (∀ j : Json, (validateStructured j).isSome = true →
      validatesAgainst getValidationResultSchema j = true) ∧
    (∀ (fields : List (String × Json)) (k : String) (v : Json),
      (k, v) ∈ fields → ¬ k = "pass" → ¬ k = "reason" →
      validatesAgainst getValidationResultSchema (Json.obj fields) = false) := by
  refine ⟨⟨rfl, rfl, rfl, rfl⟩, ?_, ?_⟩
  · intro j h
    cases hv : validatesAgainst getValidationResultSchema j with
    | false => simp [validateStructured, hv] at h
    | true => rfl
  · intro fields k v hmem hk1 hk2
    have hfall : fields.all (fun kv =>
        match getValidationResultSchema.properties.lookup kv.1 with
        | some t => typeMatches t kv.2
        | none => getValidationResultSchema.additionalProperties) = false := by
      rw [List.all_eq_false]
      refine ⟨(k, v), hmem, ?_⟩
      have hb1 : (k == "pass") = false := beq_eq_false_iff_ne.mpr hk1
      have hb2 : (k == "reason") = false := beq_eq_false_iff_ne.mpr hk2
      simp [getValidationResultSchema, List.lookup, hb1, hb2]
    simp [validatesAgainst, hfall]

/-- C6 witness: an object with an `extra` key besides valid `pass` and
`reason` fields does not validate against the strict schema. -/
theorem C6_schema_strictness_witness :
    validatesAgainst getValidationResultSchema
      (Json.obj [("pass", Json.bool true), ("reason", Json.str "Test"),
        ("extra", Json.str "field")]) = false :=
  C6_schema_strictness.2.2
    [("pass", Json.bool true), ("reason", Json.str "Test"),
      ("extra", Json.str "field")]
    "extra" (Json.str "field")
    (List.mem_cons_of_mem _ (List.mem_cons_of_mem _ (List.mem_cons_self _ _)))
    (by decide) (by decide)

/-- C7: the parser is a total function returning failure-safe defaults —
on undefined or empty response text with no valid structured output it
returns the `No response received from validation` failure, and when no
tier produces a verdict it returns the `Could not parse validation result`
failure; neither default ever carries `pass: true`. -/
theorem C7_failure_safe_defaults (so : Option Json)
    (hso : so.bind validateStructured = none) :
    parseValidationResult none so
      = ⟨false, "No response received from validation"⟩ ∧
    parseValidationResult (some "") so
      = ⟨false, "No response received from validation"⟩ ∧
    (∀ t : String,
      (trimChars t.data).isEmpty = false →
      parseVerdictChars (trimChars t.data) = none →
      (extractFenced t.data).bind parseVerdictChars = none →
      passTruePattern t.data = false →
      passFalsePattern t.data = false →
      successIndicator (t.data.map Char.toLower) = false →
      failureIndicator (t.data.map Char.toLower) = false →
      parseValidationResult (some t) so
        = ⟨false, "Could not parse validation result"⟩) := by
  refine ⟨by simp [parseValidationResult, hso], ?_, ?_⟩
  · have he : trimChars ("" : String).data = [] := rfl
    simp [parseValidationResult, hso, he]
  · intro t h1 h2 h3 h4 h5 h6 h7
    simp [parseValidationResult, hso, h1, h2, h3, h4, h5, h6, h7]

/-- C7 witness: indicator-free text yields the unparseable default with
`pass: false`. -/
theorem C7_failure_safe_defaults_witness :
    parseValidationResult (some "Some random text that has no indicators") none
      = ⟨false, "Could not parse validation result"⟩ :=
  (C7_failure_safe_defaults none rfl).2.2
    "Some random text that has no indicators"
    (by decide) (by decide) (by decide) (by decide) (by decide) (by decide)
    (by decide)

/-- C10: a structured output that does not validate against the pass/reason
shape is ignored without error — the parser behaves exactly as if no
structured output had been supplied, for every response text. -/
theorem C10_invalid_structured_ignored (j : Json)
    (h : validateStructured j = none) (responseText : Option String) :
    parseValidationResult responseText (some j)
      = parseValidationResult responseText none := by
  simp [parseValidationResult, h]

/-- C10 witness: with the invalid structured output of the test suite the
parser falls through to the JSON text and returns the verdict parsed from
it. -/
theorem C10_invalid_structured_ignored_witness :
    parseValidationResult (some "\x7b\"pass\": true, \"reason\": \"test\"\x7d")
        (some (Json.obj [("invalid", Json.str "data")]))
      = parseValidationResult
          (some "\x7b\"pass\": true, \"reason\": \"test\"\x7d") none ∧
    parseValidationResult (some "\x7b\"pass\": true, \"reason\": \"test\"\x7d")
        none
      = ⟨true, "test"⟩ :=
  ⟨C10_invalid_structured_ignored (Json.obj [("invalid", Json.str "data")])
    rfl (some "\x7b\"pass\": true, \"reason\": \"test\"\x7d"), by decide⟩

theorem trimChars_ne_nil_of_mem (cs : List Char) (c : Char) (hc : c ∈ cs)
    (hw : isWsChar c = false) : ¬ trimChars cs = [] := by
  intro h
  rw [trimChars, List.reverse_eq_nil_iff] at h
  have hall : ∀ x ∈ (cs.dropWhile isWsChar).reverse, isWsChar x :=
    List.dropWhile_eq_nil_iff.mp h
  have hall2 : ∀ x ∈ cs.dropWhile isWsChar, isWsChar x = true := fun x hx =>
    hall x (List.mem_reverse.mpr hx)
  have hallcs : ∀ x ∈ cs, isWsChar x = true := by
    intro x hx
    rw [← List.takeWhile_append_dropWhile isWsChar cs] at hx
    rcases List.mem_append.mp hx with h1 | h2
    · exact List.mem_takeWhile_imp h1
    · exact hall2 x h2
  have hcontr := hallcs c hc
  rw [hw] at hcontr
  exact Bool.false_ne_true hcontr

theorem dropUntilFence_append (pre rest : List Char)
    (h : ∀ c ∈ pre, ¬ c = backtickChar) :
    dropUntilFence (pre ++ backtickChar :: backtickChar :: backtickChar :: rest)
      = some rest := by
  induction pre with
  | nil =>
    show dropUntilFence (backtickChar :: backtickChar :: backtickChar :: rest)
      = some rest
    unfold dropUntilFence
    simp [fencePair]
  | cons c cs ih =>
    have hc := h c (List.mem_cons_self c cs)
    show dropUntilFence (c :: (cs ++ backtickChar :: backtickChar ::
      backtickChar :: rest)) = some rest
    unfold dropUntilFence
    rw [if_neg (fun hand => hc hand.1)]
    exact ih (fun x hx => h x (List.mem_cons_of_mem c hx))

theorem takeUntilFence_append (body rest : List Char)
    (h : ∀ c ∈ body, ¬ c = backtickChar) :
    takeUntilFence (body ++ backtickChar :: backtickChar :: backtickChar :: rest)
      = some body := by
  induction body with
  | nil =>
    show takeUntilFence (backtickChar :: backtickChar :: backtickChar :: rest)
      = some []
    unfold takeUntilFence
    simp [fencePair]
  | cons c cs ih =>
    have hc := h c (List.mem_cons_self c cs)
    show takeUntilFence (c :: (cs ++ backtickChar :: backtickChar ::
      backtickChar :: rest)) = some (c :: cs)
    unfold takeUntilFence
    rw [if_neg (fun hand => hc hand.1)]
    have hih := ih (fun x hx => h x (List.mem_cons_of_mem c hx))
    simp only [List.append_eq] at hih ⊢
    rw [hih]
    rfl

theorem parseStrBody_plain (s rest : List Char)
    (h : ∀ c ∈ s, ¬ c = quoteChar ∧ ¬ c = backslashChar) :
    parseStrBody (s ++ quoteChar :: rest) = some (s, rest) := by
  induction s with
  | nil =>
    show parseStrBody (quoteChar :: rest) = some ([], rest)
    unfold parseStrBody
    rw [if_pos rfl]
  | cons c cs ih =>
    obtain ⟨h1, h2⟩ := h c (List.mem_cons_self c cs)
    show parseStrBody (c :: (cs ++ quoteChar :: rest)) = some (c :: cs, rest)
    unfold parseStrBody
    rw [if_neg h1, if_neg h2]
    have hih := ih (fun x hx => h x (List.mem_cons_of_mem c hx))
    simp only [List.append_eq] at hih ⊢
    rw [hih]
    rfl

theorem parseVerdictChars_render_wrapped (b : Bool) (r : String)
    (h : ∀ c ∈ r.data, ¬ c = quoteChar ∧ ¬ c = backslashChar) :
    parseVerdictChars ('\n' :: (renderVerdict b r ++ ['\n'])) = some ⟨b, r⟩ := by
  have hb := parseStrBody_plain r.data (rbraceChar :: '\n' :: []) h
  have hassoc : (r.data ++ quoteChar :: rbraceChar :: []) ++ ['\n']
      = r.data ++ quoteChar :: rbraceChar :: '\n' :: [] := by simp
  cases b with
  | true =>
    have key : parseVerdictChars ('\n' :: (renderVerdict true r ++ ['\n']))
        = (parseStrBody ((r.data ++ quoteChar :: rbraceChar :: []) ++ ['\n'])).bind
            (fun p => (expectChar rbraceChar p.2).bind (fun cs2 =>
              if (skipWs cs2).isEmpty = true then some ⟨true, String.mk p.1⟩
              else none)) := by rfl
    rw [key, hassoc, hb]
    rfl
  | false =>
    have key : parseVerdictChars ('\n' :: (renderVerdict false r ++ ['\n']))
        = (parseStrBody ((r.data ++ quoteChar :: rbraceChar :: []) ++ ['\n'])).bind
            (fun p => (expectChar rbraceChar p.2).bind (fun cs2 =>
              if (skipWs cs2).isEmpty = true then some ⟨false, String.mk p.1⟩
              else none)) := by rfl
    rw [key, hassoc, hb]
    rfl

theorem mkFencedText_data_tagged (pre : String) (b : Bool) (r post : String) :
    (mkFencedText pre true b r post).data
      = pre.data ++ (backtickChar :: backtickChar :: backtickChar ::
          'j' :: 's' :: 'o' :: 'n' :: '\n' ::
          (renderVerdict b r ++ '\n' :: backtickChar :: backtickChar ::
            backtickChar :: post.data)) := by
  have e1 : fenceOpenJson.data
      = backtickChar :: backtickChar :: backtickChar ::
        'j' :: 's' :: 'o' :: 'n' :: '\n' :: [] := rfl
  have e2 : fenceClose.data
      = '\n' :: backtickChar :: backtickChar :: backtickChar :: [] := rfl
  simp [mkFencedText, String.data_append, e1, e2]

theorem mkFencedText_data_bare (pre : String) (b : Bool) (r post : String) :
    (mkFencedText pre false b r post).data
      = pre.data ++ (backtickChar :: backtickChar :: backtickChar :: '\n' ::
          (renderVerdict b r ++ '\n' :: backtickChar :: backtickChar ::
            backtickChar :: post.data)) := by
  have e1 : fenceOpenBare.data
      = backtickChar :: backtickChar :: backtickChar :: '\n' :: [] := rfl
  have e2 : fenceClose.data
      = '\n' :: backtickChar :: backtickChar :: backtickChar :: [] := rfl
  simp [mkFencedText, String.data_append, e1, e2]

theorem stripJsonTag_json (X : List Char) :
    stripJsonTag ('j' :: 's' :: 'o' :: 'n' :: X) = X := by
  have hcond : (['j', 's', 'o', 'n'].isPrefixOf
      ('j' :: 's' :: 'o' :: 'n' :: X)) = true := by
    simp [List.isPrefixOf]
  simp [stripJsonTag, hcond]

theorem stripJsonTag_nl (X : List Char) :
    stripJsonTag ('\n' :: X) = '\n' :: X := by
  have hcond : (['j', 's', 'o', 'n'].isPrefixOf ('\n' :: X)) = false := by
    simp [List.isPrefixOf]
  simp [stripJsonTag, hcond]

theorem extractFenced_mk (pre : String) (tagged b : Bool) (r post : String)
    (hpre : ∀ c ∈ pre.data, ¬ c = backtickChar)
    (hrender : ∀ c ∈ renderVerdict b r, ¬ c = backtickChar) :
    extractFenced (mkFencedText pre tagged b r post).data
      = some ('\n' :: (renderVerdict b r ++ ['\n'])) := by
  have h3 := takeUntilFence_append ('\n' :: (renderVerdict b r ++ ['\n']))
    post.data
    (by
      intro c hc
      rcases List.mem_cons.mp hc with hcc | hcc
      · subst hcc; decide
      · rcases List.mem_append.mp hcc with hcc2 | hcc2
        · exact hrender c hcc2
        · simp at hcc2; subst hcc2; decide)
  have h2 : takeUntilFence ('\n' ::
      (renderVerdict b r ++ '\n' :: backtickChar :: backtickChar ::
        backtickChar :: post.data))
      = some ('\n' :: (renderVerdict b r ++ ['\n'])) := by
    simpa [List.append_assoc, List.cons_append] using h3
  cases tagged with
  | true =>
    rw [mkFencedText_data_tagged]
    have h1 := dropUntilFence_append pre.data
      ('j' :: 's' :: 'o' :: 'n' :: '\n' ::
        (renderVerdict b r ++ '\n' :: backtickChar :: backtickChar ::
          backtickChar :: post.data)) hpre
    simp [extractFenced, h1, stripJsonTag_json, h2]
  | false =>
    rw [mkFencedText_data_bare]
    have h1 := dropUntilFence_append pre.data
      ('\n' :: (renderVerdict b r ++ '\n' :: backtickChar :: backtickChar ::
        backtickChar :: post.data)) hpre
    simp [extractFenced, h1, stripJsonTag_nl, h2]

theorem renderVerdict_no_backtick (b : Bool) (r : String)
    (hrtick : ∀ c ∈ r.data, ¬ c = backtickChar) :
    ∀ c ∈ renderVerdict b r, ¬ c = backtickChar := by
  cases b with
  | true =>
    have hshape : renderVerdict true r
        = ([lbraceChar, quoteChar, 'p', 'a', 's', 's', quoteChar, ':', ' ',
            't', 'r', 'u', 'e', ',', ' ', quoteChar, 'r', 'e', 'a', 's', 'o',
            'n', quoteChar, ':', ' ', quoteChar])
          ++ (r.data ++ [quoteChar, rbraceChar]) := by
      simp [renderVerdict]
    intro c hc heq
    subst heq
    rw [hshape] at hc
    rcases List.mem_append.mp hc with h | h
    · exact absurd h (by decide)
    · rcases List.mem_append.mp h with h2 | h2
      · exact absurd rfl (hrtick _ h2)
      · exact absurd h2 (by decide)
  | false =>
    have hshape : renderVerdict false r
        = ([lbraceChar, quoteChar, 'p', 'a', 's', 's', quoteChar, ':', ' ',
            'f', 'a', 'l', 's', 'e', ',', ' ', quoteChar, 'r', 'e', 'a', 's',
            'o', 'n', quoteChar, ':', ' ', quoteChar])
          ++ (r.data ++ [quoteChar, rbraceChar]) := by
      simp [renderVerdict]
    intro c hc heq
    subst heq
    rw [hshape] at hc
    rcases List.mem_append.mp hc with h | h
    · exact absurd h (by decide)
    · rcases List.mem_append.mp h with h2 | h2
      · exact absurd rfl (hrtick _ h2)
      · exact absurd h2 (by decide)

/-- C9: for every boolean `b` and escape-free string `R`, a response text
made of backtick-free leading prose, a fenced code block — ```json or a
bare ``` — whose contents are the JSON object with pass `b` and reason `R`,
and arbitrary trailing text after the closing fence — when no valid
structured output is supplied and the whole trimmed text is not itself a
valid verdict (tried first) — parses to exactly `\x7bpass: b, reason: R\x7d`. -/
theorem C9_fenced_block (b tagged : Bool) (pre r post : String) (so : Option Json)
    (hso : so.bind validateStructured = none)
    (hr : ∀ c ∈ r.data, plainChar c = true)
    (hpre : ∀ c ∈ pre.data, ¬ c = backtickChar)
    (hwhole : parseVerdictChars
      (trimChars (mkFencedText pre tagged b r post).data) = none) :
    parseValidationResult (some (mkFencedText pre tagged b r post)) so
      = ⟨b, r⟩ := by
  have hgood : ∀ c ∈ r.data, ¬ c = quoteChar ∧ ¬ c = backslashChar := by
    intro c hc
    have hp := hr c hc
    simp [plainChar] at hp
    exact ⟨hp.1, hp.2.1⟩
  have hrtick : ∀ c ∈ r.data, ¬ c = backtickChar := by
    intro c hc
    have hp := hr c hc
    simp [plainChar] at hp
    exact hp.2.2
  have hext := extractFenced_mk pre tagged b r post hpre
    (renderVerdict_no_backtick b r hrtick)
  have hparse := parseVerdictChars_render_wrapped b r hgood
  have hmem : backtickChar ∈ (mkFencedText pre tagged b r post).data := by
    cases tagged with
    | true => rw [mkFencedText_data_tagged]; simp
    | false => rw [mkFencedText_data_bare]; simp
  have hnil := trimChars_ne_nil_of_mem _ _ hmem (by decide)
  have hieq : (trimChars (mkFencedText pre tagged b r post).data).isEmpty
      = false := by
    cases hcase : (trimChars (mkFencedText pre tagged b r post).data).isEmpty with
    | false => rfl
    | true => exact absurd (List.isEmpty_iff.mp hcase) hnil
  simp [parseValidationResult, hso, hieq, hwhole, hext, hparse]

/-- C9 witness: a bare ``` block carrying pass `true` and reason `linting
clean`, with prose before the fence and trailing text after it, parses to
exactly that verdict. -/
theorem C9_fenced_block_witness :
    parseValidationResult
      (some (mkFencedText "Result:\n" false true "linting clean" "\nDone"))
      none
      = ⟨true, "linting clean"⟩ :=
  C9_fenced_block true false "Result:\n" "linting clean" "\nDone" none rfl
    (by decide) (by decide) (by decide)

end CyrusValidation
